import Mathlib

/-!
Verification of the TraLa service-dashboard core (Go sources under
`internal/`): the Traefik rule parser (`internal/traefik`, URL
reconstruction), the icon/tag resolver (`internal/icons`), the aggregator
(`internal/services/processor.go`) and the grouping engine
(`internal/services/grouping.go`).

The Go code is shallowly embedded: Go strings become Lean `String`
(operated on through their character lists, since Go string operations are
byte-wise and all data of interest is ASCII), Go `int` becomes `Int`,
Go `float64` arithmetic (used only for the grouping thresholds and the
target group size) is modelled by exact fraction arithmetic on `GoRat`
(an unnormalised numerator/denominator pair, so every operation is
kernel-computable), Go maps become lookup functions `String → Option _`,
and functions with network side effects become explicit oracles carried in
an environment record.  Iteration over a Go map (whose order is
unspecified) is modelled by an explicit enumeration-order parameter.
-/

/-! ## Go string primitives -/

/-- Character-list embedding of `strings.ToLower` (Go lowercases Unicode;
`Char.toLower` covers the ASCII range, which is all the repository's data
uses). -/
def strToLower (s : String) : String := ⟨s.data.map Char.toLower⟩

/-- Embedding of `strings.HasPrefix`. -/
def goHasPrefix (s pre : String) : Bool := pre.data.isPrefixOf s.data

/-- Embedding of `strings.TrimPrefix`: removes `pre` once if present. -/
def goTrimPrefix (s pre : String) : String :=
  if goHasPrefix s pre then ⟨s.data.drop pre.data.length⟩ else s

/-- Character-list suffix test (used to state "ends with" properties). -/
def strEndsWith (s suf : String) : Bool := suf.data.isSuffixOf s.data

/-- Embedding of `strings.ReplaceAll s (string c) (string r)` for
single-character patterns, the only shape the code uses. -/
def strReplaceAll (s : String) (c r : Char) : String :=
  ⟨s.data.map (fun x => if x = c then r else x)⟩

/-- `strings.Split(s, "@")[0]`: everything before the first `'@'`. -/
def takeBeforeAt (s : String) : String := ⟨s.data.takeWhile (· ≠ '@')⟩

/-! ## Rule parser (`internal/traefik`, `ReconstructURL`)

The Go code extracts captures with the regexes
`Host\(\s*` + "`" + `([^`+"`"+`]+)` + "`" + `\s*\)` and the analogous
`PathPrefix` pattern, taking the leftmost match.  Both patterns are
deterministic (no backtracking can change the outcome), so they are
embedded as a direct scanner: at each start position try to read the
literal, optional whitespace, a backtick, a non-empty run of non-backtick
characters, a backtick, optional whitespace and `)`. -/

/-- Go's regexp `\s` character class: `[\t\n\f\r ]`. -/
def goSpace (c : Char) : Bool :=
  c = ' ' ∨ c = '\t' ∨ c = '\n' ∨ c = '\x0c' ∨ c = '\r'

/-- Attempt to match `lit` `\s*` `` ` `` `[^`]+` `` ` `` `\s*` `)` at the
start of `cs`, returning the capture. -/
def matchCaptureAt (lit : List Char) (cs : List Char) : Option String :=
  if lit.isPrefixOf cs then
    match (cs.drop lit.length).dropWhile goSpace with
    | '`' :: afterTick =>
      let cap := afterTick.takeWhile (· ≠ '`')
      if cap.isEmpty then none
      else
        match (afterTick.dropWhile (· ≠ '`')) with
        | '`' :: afterCap =>
          match afterCap.dropWhile goSpace with
          | ')' :: _ => some ⟨cap⟩
          | _ => none
        | _ => none
    | _ => none
  else none

/-- Leftmost match of the capture pattern starting from any position. -/
def findCapture (lit : List Char) : List Char → Option String
  | [] => none
  | c :: rest =>
    match matchCaptureAt lit (c :: rest) with
    | some cap => some cap
    | none => findCapture lit rest

/-- The literal head of `hostRegex`. -/
def hostLit : List Char := "Host(".data

/-- The literal head of `pathRegex`. -/
def pathLit : List Char := "PathPrefix(".data

/-! ## Traefik data model -/

/-- `models.TraefikRouter`.  The `tls` field is a `*json.RawMessage`:
`none` models a nil pointer, `some s` the raw JSON text. -/
structure TraefikRouter where
  name : String
  rule : String
  priority : Int
  entryPoints : List String
  tls : Option String
deriving DecidableEq

/-- `models.TraefikEntryPoint.HTTP`: its `tls` is a `json.RawMessage`
(`none` models a nil slice). -/
structure EntryPointHTTP where
  tls : Option String
deriving DecidableEq

/-- `models.TraefikEntryPoint`. -/
structure TraefikEntryPoint where
  address : String
  http : EntryPointHTTP
deriving DecidableEq

/-- The TLS test both branches of `DetermineProtocol` apply to a raw TLS
marker: present and not `"null"`, `"{}"` or `""`. -/
def tlsConfigured : Option String → Bool
  | none => false
  | some t => t ≠ "null" ∧ t ≠ "{}" ∧ t ≠ ""

/-- Embedding of `traefik.DetermineProtocol`: the router's own TLS
configuration is checked first, then the entrypoint's, else `"http"`. -/
def DetermineProtocol (router : TraefikRouter) (entryPoint : TraefikEntryPoint) : String :=
  if tlsConfigured router.tls then "https"
  else if tlsConfigured entryPoint.http.tls then "https"
  else "http"

/-- The path clean-up inside `ReconstructURL`: prefix a missing leading
`'/'` (for a non-empty path) and `strings.TrimSuffix(path, "/")` — which
removes at most ONE trailing slash. -/
def cleanPath (p : List Char) : List Char :=
  let p₂ := if p ≠ [] ∧ p.head? ≠ some '/' then '/' :: p else p
  if p₂.getLast? = some '/' then p₂.dropLast else p₂

/-- Embedding of `traefik.ReconstructURL`.  The entrypoint table is a Go
map, modelled as a lookup function. -/
def ReconstructURL (router : TraefikRouter)
    (entryPoints : String → Option TraefikEntryPoint) : String :=
  match findCapture hostLit router.rule.data with
  | none => ""
  | some hostname =>
    let path : String :=
      match findCapture pathLit router.rule.data with
      | some p => ⟨cleanPath p.data⟩
      | none => ⟨cleanPath []⟩
    match router.entryPoints with
    | [] => ""
    | entryPointName :: _ =>
      match entryPoints entryPointName with
      | none => ""
      | some entryPoint =>
        let protocol := DetermineProtocol router entryPoint
        let port := goTrimPrefix entryPoint.address ":"
        if (protocol = "http" ∧ port = "80") ∨ (protocol = "https" ∧ port = "443") then
          protocol ++ "://" ++ hostname ++ path
        else
          protocol ++ "://" ++ hostname ++ path ++ ":" ++ port

/-! ## Service model and grouping engine (`internal/services/grouping.go`) -/

/-- `models.Service`. -/
structure Service where
  name : String
  url : String
  priority : Int
  icon : String
  tags : List String
  group : String
deriving DecidableEq

/-- The zero value `models.Service{}`. -/
def emptyService : Service := ⟨"", "", 0, "", [], ""⟩

instance : Inhabited Service := ⟨emptyService⟩

/-- Exact fraction arithmetic standing in for the Go `float64` values used
by the grouping engine (`frequencyThreshold`, `targetSize`, tag scores).
The pair is kept unnormalised so that every operation reduces in the
kernel; the denominator is a `Nat` and is positive in every value the
embedding constructs. -/
structure GoRat where
  num : Int
  den : Nat
deriving DecidableEq

/-- Embed an integer count. -/
def GoRat.ofNat (n : Nat) : GoRat := ⟨n, 1⟩

/-- Fraction multiplication. -/
def GoRat.mul (a b : GoRat) : GoRat := ⟨a.num * b.num, a.den * b.den⟩

/-- Fraction subtraction. -/
def GoRat.sub (a b : GoRat) : GoRat :=
  ⟨a.num * (b.den : Int) - b.num * (a.den : Int), a.den * b.den⟩

/-- Absolute value (`math.Abs`). -/
def GoRat.abs (a : GoRat) : GoRat := ⟨|a.num|, a.den⟩

/-- Negation. -/
def GoRat.neg (a : GoRat) : GoRat := ⟨-a.num, a.den⟩

/-- Strict comparison by cross-multiplication (valid for the positive
denominators the embedding produces). -/
def GoRat.blt (a b : GoRat) : Bool := a.num * (b.den : Int) < b.num * (a.den : Int)

/-- Go's `int(x)` conversion on a non-negative fraction: truncation toward
zero. -/
def GoRat.trunc (a : GoRat) : Int := a.num.tdiv (a.den : Int)

/-- The tag frequency map built by `calculateTagFrequencies`: the number
of (service, tag-occurrence) pairs for `tag` among `remaining`. -/
def countTag (remaining : List Service) (tag : String) : Nat :=
  ((remaining.map Service.tags).flatten).count tag

/-- The key set of the frequency map, as a duplicate-free list.  A Go
`range` over the map visits exactly these keys, in an unspecified order;
theorems quantify over an arbitrary permutation of this list. -/
def tagKeys (remaining : List Service) : List String :=
  ((remaining.map Service.tags).flatten).dedup

/-- Byte-wise (for ASCII: character-wise) string order, as used by Go's
`sort.Strings`. -/
def charListLe : List Char → List Char → Bool
  | [], _ => true
  | _ :: _, [] => false
  | a :: as, b :: bs => if a = b then charListLe as bs else decide (a < b)

/-- `≤` on strings via `charListLe`. -/
def strLe (a b : String) : Bool := charListLe a.data b.data

/-- `sort.Strings`: sort into non-decreasing `strLe` order. -/
def sortStrings (l : List String) : List String :=
  l.insertionSort (fun a b => strLe a b = true)

/-- The per-tag admission test of `filterValidTags`, for a given
`threshold = int(frequencyThreshold * totalRemaining)` and
`minServicesPerGroup`: mirrors the three `if` cases of the Go loop body.
`count` is the tag's frequency among `remaining`. -/
def tagValid (remaining : List Service) (threshold minServicesPerGroup : Int)
    (tag : String) : Bool :=
  let count : Int := countTag remaining tag
  if count > threshold ∧ count < minServicesPerGroup then false
  else if count = 1 ∧ minServicesPerGroup > 1 then
    remaining.any (fun s => s.tags = [tag])
  else count ≥ minServicesPerGroup

/-- Embedding of `filterValidTags`.  `order` is the (unspecified) order in
which `range tagCount` visits the map keys; the result is sorted with
`sort.Strings`. -/
def filterValidTags (remaining : List Service) (frequencyThreshold : GoRat)
    (minServicesPerGroup : Int) (order : List String) : List String :=
  let total := remaining.length
  let threshold : Int := (frequencyThreshold.mul (GoRat.ofNat total)).trunc
  sortStrings (order.filter (tagValid remaining threshold minServicesPerGroup))

/-- The fold of `selectBestTag`'s loop: carries the best tag and score so
far, starting from `("", -1e9)`; a later tag replaces the best only on a
strictly greater score. -/
def selectBestTagAux (tagCount : String → Nat) (targetSize : GoRat) :
    List String → String × GoRat → String × GoRat
  | [], acc => acc
  | tag :: rest, (bestTag, bestScore) =>
    let score := ((GoRat.ofNat (tagCount tag)).sub targetSize).abs.neg
    if bestScore.blt score then selectBestTagAux tagCount targetSize rest (tag, score)
    else selectBestTagAux tagCount targetSize rest (bestTag, bestScore)

/-- Embedding of `selectBestTag`. -/
def selectBestTag (validTags : List String) (tagCount : String → Nat)
    (targetSize : GoRat) : String :=
  (selectBestTagAux tagCount targetSize validTags ("", ⟨-1000000000, 1⟩)).1

/-- The membership test `for _, t := range s.Tags { if t == bestTag ... }`. -/
def hasTag (s : Service) (t : String) : Bool := s.tags.contains t

/-- Embedding of `assignGroupToServices`: set the group of every remaining
service carrying `bestTag` and return the updated service list together
with the indices still unassigned. -/
def assignGroupToServices (services : List Service) (remainingIndices : List Nat)
    (bestTag groupName : String) : List Service × List Nat :=
  remainingIndices.foldl
    (fun acc idx =>
      let s := acc.1.getD idx emptyService
      if hasTag s bestTag then (acc.1.set idx { s with group := groupName }, acc.2)
      else (acc.1, acc.2 ++ [idx]))
    (services, [])

/-- The greedy selection loop of `CalculateGroups`.  The Go loop runs
while services and valid tags remain; each pass either breaks (no best
tag) or removes the chosen tag from `validTags`, so `validTags.length`
iterations always suffice — the loop is embedded with that much fuel
(`groupLoop_fuel_irrelevant` below shows extra fuel never changes the
result). -/
def groupLoop (targetSize : GoRat) :
    Nat → List Service → List Nat → List String → List Service
  | 0, services, _, _ => services
  | fuel + 1, services, remainingIndices, validTags =>
    if remainingIndices.length = 0 ∨ validTags.length = 0 then services
    else
      let remaining := remainingIndices.map (fun i => services.getD i emptyService)
      let tagCount := countTag remaining
      let bestTag := selectBestTag validTags tagCount targetSize
      if bestTag = "" then services
      else
        let step := assignGroupToServices services remainingIndices bestTag bestTag
        groupLoop targetSize fuel step.1 step.2 (validTags.filter (· ≠ bestTag))

/-- Embedding of `CalculateGroups`, with the grouping configuration
(`GetGroupingEnabled`, `GetTagFrequencyThreshold`, `GetMinServicesPerGroup`)
passed explicitly, `targetSize` standing for
`math.Sqrt(float64(len(remaining)))` (irrational in general, hence a
parameter of the embedding) and `order` the key-visit order of the single
`range tagCount` in `filterValidTags`. -/
def CalculateGroupsOrd (groupingEnabled : Bool) (frequencyThreshold : GoRat)
    (minServicesPerGroup : Int) (targetSize : GoRat) (order : List String)
    (services : List Service) : List Service :=
  if ¬groupingEnabled then services.map (fun s => { s with group := "" })
  else
    let remainingIndices :=
      (List.range services.length).filter
        (fun i => (services.getD i emptyService).group = "")
    if remainingIndices.length = 0 then services
    else
      let remaining := remainingIndices.map (fun i => services.getD i emptyService)
      let validTags := filterValidTags remaining frequencyThreshold minServicesPerGroup order
      groupLoop targetSize validTags.length services remainingIndices validTags

/-- `CalculateGroups` with the canonical key order (`tagKeys`). -/
def CalculateGroups (groupingEnabled : Bool) (frequencyThreshold : GoRat)
    (minServicesPerGroup : Int) (targetSize : GoRat)
    (services : List Service) : List Service :=
  let remainingIndices :=
    (List.range services.length).filter
      (fun i => (services.getD i emptyService).group = "")
  let remaining := remainingIndices.map (fun i => services.getD i emptyService)
  CalculateGroupsOrd groupingEnabled frequencyThreshold minServicesPerGroup targetSize
    (tagKeys remaining) services

/-- The spec's wording of the valid-tag filter, for comparison with the
code's `tagValid`: "(a) frequency below `frequencyThreshold ×
totalRemaining` OR frequency meets `minGroupSize`, AND (b) if frequency is
exactly 1 and `minGroupSize > 1`, some remaining service's entire tag set
is exactly that tag". -/
def specTagValid (remaining : List Service) (frequencyThreshold : GoRat)
    (minServicesPerGroup : Int) (tag : String) : Bool :=
  let count : Int := countTag remaining tag
  let total := remaining.length
  ((GoRat.ofNat (countTag remaining tag)).blt
      (frequencyThreshold.mul (GoRat.ofNat total)) ∨ count ≥ minServicesPerGroup) ∧
    (count = 1 ∧ minServicesPerGroup > 1 → remaining.any (fun s => s.tags = [tag]))

/-! ## Icon/tag resolver (`internal/icons`) -/

/-- `models.SelfHstIcon`. -/
structure SelfHstIcon where
  name : String
  reference : String
  svg : String
  png : String
  webp : String
  light : String
  dark : String
  category : String
  tags : String
  createdAt : String
deriving DecidableEq

/-- `models.SelfHstApp`. -/
structure SelfHstApp where
  reference : String
  appName : String
  tags : List String
deriving DecidableEq

/-- A network probe performed by the resolver: the `/favicon.ico`
existence check of `FindFavicon`, the HTML fetch of `FindHTMLIcon`, or the
image-validation HEAD request of `IsValidImageURL` (the latter only ever
happens inside the first two). -/
inductive Probe where
  | favicon (url : String)
  | htmlFetch (url : String)
  | imageHead (url : String)
deriving DecidableEq

/-- `filepath.Ext`: the suffix of the final path element beginning at its
last dot, dot included; `""` when the final element has no dot.  Scans the
path from the right, stopping at a `'/'`. -/
def extAux : List Char → List Char → String
  | [], _ => ""
  | c :: rest, acc =>
    if c = '/' then ""
    else if c = '.' then ⟨c :: acc⟩
    else extAux rest (c :: acc)

/-- `filepath.Ext` on a string. -/
def filepathExt (s : String) : String := extAux s.data.reverse []

/-- Embedding of `GetSelfHstIconURL`: given the outcome of
`GetSelfHstIconNames` (the cached catalog, or an error), find the entry
for `reference` and build an SVG-preferring URL. -/
def GetSelfHstIconURL (selfhstIconURL : String)
    (iconsResult : Except Unit (List SelfHstIcon)) (reference : String) : String :=
  if reference = "" then ""
  else
    match iconsResult with
    | .error _ => ""
    | .ok icons =>
      match icons.find? (fun icon => icon.reference = reference) with
      | none => ""
      | some icon =>
        if icon.svg = "Yes" then selfhstIconURL ++ "svg/" ++ icon.reference ++ ".svg"
        else selfhstIconURL ++ "png/" ++ icon.reference ++ ".png"

/-- The environment of the resolver: the configuration lookups it performs
(`GetIconOverride`, `GetSelfhstIconURL`), the startup-scanned local icon
index behind `FindUserIcon` (a pure fuzzy match), the current outcomes of
the two catalog caches, and oracles for the outcome of the two
network-probing tiers. -/
structure IconEnv where
  iconOverride : String → String
  selfhstIconURL : String
  findUserIcon : String → String
  iconsResult : Except Unit (List SelfHstIcon)
  appTagsResult : Except Unit (List SelfHstApp)
  faviconResult : String → String
  htmlIconResult : String → String

/-- Embedding of `FindFavicon`: a network existence check for
`/favicon.ico` at the service URL (the `Probe.favicon` entry records the
network access, including its internal `IsValidImageURL` HEAD request);
its outcome is oracle-supplied. -/
def FindFavicon (env : IconEnv) (serviceURL : String) : String × List Probe :=
  (env.faviconResult serviceURL, [Probe.favicon serviceURL])

/-- Embedding of `FindHTMLIcon`: fetches the service's HTML and validates
a `<link>` icon (the `Probe.htmlFetch` entry records the network access,
including any internal `IsValidImageURL` HEAD request); its outcome is
oracle-supplied. -/
def FindHTMLIcon (env : IconEnv) (serviceURL : String) : String × List Probe :=
  (env.htmlIconResult serviceURL, [Probe.htmlFetch serviceURL])

/-- Embedding of `icons.FindIcon`: the five-tier cascade.  Returns the
icon reference together with the list of network probes performed. -/
def FindIcon (env : IconEnv) (routerName serviceURL displayNameReplaced reference : String) :
    String × List Probe :=
  let iconValue := env.iconOverride routerName
  if iconValue ≠ "" then
    if goHasPrefix iconValue "http://" ∨ goHasPrefix iconValue "https://" then
      (iconValue, [])
    else
      let ext := filepathExt iconValue
      if ext = ".png" ∨ ext = ".svg" ∨ ext = ".webp" then
        (env.selfhstIconURL ++ goTrimPrefix ext "." ++ "/" ++ strToLower iconValue, [])
      else
        (env.selfhstIconURL ++ "png/" ++ strToLower iconValue ++ ".png", [])
  else
    let userIcon := env.findUserIcon displayNameReplaced
    if userIcon ≠ "" then (userIcon, [])
    else if reference ≠ "" then
      (GetSelfHstIconURL env.selfhstIconURL env.iconsResult reference, [])
    else
      let fav := FindFavicon env serviceURL
      if fav.1 ≠ "" then fav
      else
        let html := FindHTMLIcon env serviceURL
        if html.1 ≠ "" then (html.1, fav.2 ++ html.2)
        else ("", fav.2 ++ html.2)

/-- Embedding of `GetServiceTags`: look the reference up in the app-tag
catalog; empty on a failed cache or a missing entry. -/
def GetServiceTags (env : IconEnv) (reference : String) : List String :=
  if reference = "" then []
  else
    match env.appTagsResult with
    | .error _ => []
    | .ok data =>
      match data.find? (fun entry => entry.reference = reference) with
      | none => []
      | some entry => entry.tags

/-- Embedding of `icons.FindTags`. -/
def FindTags (env : IconEnv) (routerName reference : String) : List String :=
  if reference ≠ "" then GetServiceTags env reference else []

/-! ## Remote-catalog caches (`internal/icons/cache.go`)

The two cache getters are embedded as sequential state transformers: the
global `(data, lastRefreshTime)` pair is passed in and out explicitly,
`time.Since` is modelled by `now - cacheTime` over nanosecond timestamps,
and the network fetch plus JSON decode is an `Except`-valued input.  The
double-checked locking re-test collapses in this sequential model. -/

/-- `selfhstCacheTTL = 1 * time.Hour` in nanoseconds. -/
def selfhstCacheTTL : Int := 3600000000000

/-- `selfhstAppsCacheTTL = 24 * time.Hour` in nanoseconds. -/
def selfhstAppsCacheTTL : Int := 86400000000000

/-- The icon-cache globals `(selfhstIcons, selfhstCacheTime)`. -/
structure SelfHstIconCache where
  icons : List SelfHstIcon
  cacheTime : Int
deriving DecidableEq

/-- The app-tag-cache globals `(selfhstApps, selfhstAppsCacheTime)`. -/
structure SelfHstAppsCache where
  apps : List SelfHstApp
  cacheTime : Int
deriving DecidableEq

/-- The catalog sort order: reference length ascending, then reference
lexicographic (the Go `sort.Slice` comparator's reflexive closure). -/
def iconLe (a b : SelfHstIcon) : Bool :=
  a.reference.length < b.reference.length ∨
    (a.reference.length = b.reference.length ∧ strLe a.reference b.reference)

/-- The same order on app-tag entries. -/
def appLe (a b : SelfHstApp) : Bool :=
  a.reference.length < b.reference.length ∨
    (a.reference.length = b.reference.length ∧ strLe a.reference b.reference)

/-- Embedding of `GetSelfHstIconNames`: serve the cache while it is fresh
(age below TTL) and non-empty; otherwise refetch — a fetch failure is
returned to the caller as an error, with the cache left untouched. -/
def GetSelfHstIconNames (now : Int) (st : SelfHstIconCache)
    (fetch : Except Unit (List SelfHstIcon)) :
    Except Unit (List SelfHstIcon) × SelfHstIconCache :=
  if now - st.cacheTime < selfhstCacheTTL ∧ 0 < st.icons.length then (.ok st.icons, st)
  else
    match fetch with
    | .error e => (.error e, st)
    | .ok icons =>
      let sorted := icons.insertionSort (fun a b => iconLe a b = true)
      (.ok sorted, ⟨sorted, now⟩)

/-- Embedding of `GetSelfHstAppTags`, structurally identical with the
24-hour TTL. -/
def GetSelfHstAppTags (now : Int) (st : SelfHstAppsCache)
    (fetch : Except Unit (List SelfHstApp)) :
    Except Unit (List SelfHstApp) × SelfHstAppsCache :=
  if now - st.cacheTime < selfhstAppsCacheTTL ∧ 0 < st.apps.length then (.ok st.apps, st)
  else
    match fetch with
    | .error e => (.error e, st)
    | .ok data =>
      let sorted := data.insertionSort (fun a b => appLe a b = true)
      (.ok sorted, ⟨sorted, now⟩)

/-! ## Aggregator (`internal/services/processor.go`) -/

/-- The environment of `ProcessRouter`: the configuration lookups it makes
(exclusion patterns, API host, display-name/group overrides), the stdlib
glob matcher `filepath.Match` (`none` models a pattern error, on which the
Go code logs and continues), and the fuzzy reference resolution
(`ResolveSelfHstReference`, whose outcome depends on the icon catalog and
the external fuzzy-match library) as an oracle, together with the
resolver environment. -/
structure ProcEnv where
  matchGlob : String → String → Option Bool
  excludeRouters : List String
  excludeEntrypoints : List String
  traefikAPIHost : String
  displayNameOverride : String → String
  groupOverride : String → String
  resolveReference : String → String
  iconEnv : IconEnv

/-- Embedding of `IsExcluded`: any router-name exclusion pattern matches
(pattern errors are skipped). -/
def IsExcluded (env : ProcEnv) (routerName : String) : Bool :=
  env.excludeRouters.any (fun pat => (env.matchGlob pat routerName).getD false)

/-- Embedding of `IsEntrypointExcluded`. -/
def IsEntrypointExcluded (env : ProcEnv) (entryPoints : List String) : Bool :=
  entryPoints.any (fun ep =>
    env.excludeEntrypoints.any (fun pat => (env.matchGlob pat ep).getD false))

/-- The router-name preprocessing of `ProcessRouter`: strip the
`@provider` suffix, then a leading (case-insensitive) `entrypointName-`
prefix when the name is strictly longer than the prefix. -/
def preprocessRouterName (router : TraefikRouter) : String :=
  let routerName := takeBeforeAt router.name
  match router.entryPoints with
  | [] => routerName
  | entryPointName :: _ =>
    let pre := entryPointName ++ "-"
    if pre.data.length < routerName.data.length ∧
        goHasPrefix (strToLower routerName) (strToLower pre) then
      ⟨routerName.data.drop pre.data.length⟩
    else routerName

/-- The Traefik-API check of `ProcessRouter`: with a configured API host
(prefixed with `http://` when it has no `http` prefix), does the service
URL equal `<apiHost>/api`? -/
def isTraefikAPIService (env : ProcEnv) (serviceURL : String) : Bool :=
  if env.traefikAPIHost ≠ "" then
    let apiHost :=
      if ¬goHasPrefix env.traefikAPIHost "http" then "http://" ++ env.traefikAPIHost
      else env.traefikAPIHost
    serviceURL = apiHost ++ "/api"
  else false

/-- Embedding of `ProcessRouter`.  Returns the processed service and the
inclusion flag, `(models.Service{}, false)` on any drop. -/
def ProcessRouter (env : ProcEnv) (router : TraefikRouter)
    (entryPoints : String → Option TraefikEntryPoint) : Service × Bool :=
  let routerName := preprocessRouterName router
  let serviceURL := ReconstructURL router entryPoints
  if serviceURL = "" then (emptyService, false)
  else if IsExcluded env routerName then (emptyService, false)
  else if IsEntrypointExcluded env router.entryPoints then (emptyService, false)
  else
    if isTraefikAPIService env serviceURL then (emptyService, false)
    else
      let displayName :=
        let override := env.displayNameOverride routerName
        if override = "" then strReplaceAll routerName '-' ' ' else override
      let displayNameReplaced := strReplaceAll displayName ' ' '-'
      let reference := env.resolveReference displayNameReplaced
      let iconURL := (FindIcon env.iconEnv routerName serviceURL displayNameReplaced reference).1
      let tags := FindTags env.iconEnv routerName reference
      let group := env.groupOverride routerName
      ({ name := displayName, url := serviceURL, priority := router.priority,
         icon := iconURL, tags := tags, group := group }, true)

/-! ## Manually declared services (`GetManualServices`) -/

/-- `models.ManualService`. -/
structure ManualService where
  name : String
  url : String
  icon : String
  priority : Int
  group : String
deriving DecidableEq

/-- The environment of `GetManualServices`: the URL validator
(`config.IsValidUrl`, a wrapper over the stdlib `url.Parse` checking for a
scheme and a host), the reference resolution oracle, and the resolver
environment. -/
structure ManualEnv where
  isValidUrl : String → Bool
  resolveReference : String → String
  iconEnv : IconEnv

/-- The loop body of `GetManualServices` for one declared service:
`none` when the URL is invalid (the entry is dropped with a warning). -/
def processManualService (env : ManualEnv) (manualService : ManualService) :
    Option Service :=
  if ¬env.isValidUrl manualService.url then none
  else
    let displayNameReplaced := strReplaceAll manualService.name ' ' '-'
    let reference := env.resolveReference displayNameReplaced
    let iconURL :=
      if manualService.icon = "" then
        (FindIcon env.iconEnv manualService.name manualService.url
          displayNameReplaced reference).1
      else if ¬(goHasPrefix manualService.icon "http://" ∨
          goHasPrefix manualService.icon "https://") then
        let ext := filepathExt manualService.icon
        if ext = ".png" ∨ ext = ".svg" ∨ ext = ".webp" then
          env.iconEnv.selfhstIconURL ++ goTrimPrefix ext "." ++ "/" ++
            strToLower manualService.icon
        else env.iconEnv.selfhstIconURL ++ "png/" ++ manualService.icon
      else manualService.icon
    let tags := FindTags env.iconEnv manualService.name reference
    let priority := if manualService.priority = 0 then 50 else manualService.priority
    some { name := manualService.name, url := manualService.url, priority := priority,
           icon := iconURL, tags := tags, group := manualService.group }

/-- Embedding of `GetManualServices`: validate and transform each declared
service in order, dropping invalid ones. -/
def GetManualServices (env : ManualEnv) (manualServices : List ManualService) :
    List Service :=
  manualServices.filterMap (processManualService env)

/-! ## Concrete inputs for the grouping scenario -/

/-- Scenario service `A` with tags `[x, y]`. -/
def svcA : Service := ⟨"A", "http://a", 0, "", ["x", "y"], ""⟩

/-- Scenario service `B` with tags `[x]`. -/
def svcB : Service := ⟨"B", "http://b", 0, "", ["x"], ""⟩

/-- Scenario service `C` with tags `[y, z]`. -/
def svcC : Service := ⟨"C", "http://c", 0, "", ["y", "z"], ""⟩

/-- Scenario service `D` with tags `[z]`. -/
def svcD : Service := ⟨"D", "http://d", 0, "", ["z"], ""⟩

/-! ## Order facts about `strLe` and `sortStrings` -/

theorem charListLe_total : ∀ a b : List Char, charListLe a b = true ∨ charListLe b a = true := by
  intro a
  induction a with
  | nil => intro b; left; rfl
  | cons x xs ih =>
    intro b
    cases b with
    | nil => right; rfl
    | cons y ys =>
      by_cases hxy : x = y
      · subst hxy
        simpa only [charListLe, if_pos rfl] using ih ys
      · simp only [charListLe, if_neg hxy, if_neg (Ne.symm hxy)]
        rcases lt_trichotomy x y with h | h | h
        · left; exact decide_eq_true h
        · exact absurd h hxy
        · right; exact decide_eq_true h

theorem charListLe_trans : ∀ a b c : List Char,
    charListLe a b = true → charListLe b c = true → charListLe a c = true := by
  intro a
  induction a with
  | nil => intro b c _ _; rfl
  | cons x xs ih =>
    intro b c hab hbc
    cases b with
    | nil => simp [charListLe] at hab
    | cons y ys =>
      cases c with
      | nil => simp [charListLe] at hbc
      | cons z zs =>
        simp only [charListLe] at hab hbc ⊢
        by_cases hxy : x = y <;> by_cases hyz : y = z
        · subst hxy; subst hyz
          rw [if_pos rfl] at hab hbc ⊢
          exact ih ys zs hab hbc
        · subst hxy
          rw [if_pos rfl] at hab
          rw [if_neg hyz] at hbc ⊢
          exact hbc
        · subst hyz
          rw [if_neg hxy] at hab ⊢
          exact hab
        · rw [if_neg hxy] at hab
          rw [if_neg hyz] at hbc
          have hx : x < y := of_decide_eq_true hab
          have hy : y < z := of_decide_eq_true hbc
          have hxz : x < z := lt_trans hx hy
          rw [if_neg (ne_of_lt hxz)]
          exact decide_eq_true hxz

theorem charListLe_antisymm : ∀ a b : List Char,
    charListLe a b = true → charListLe b a = true → a = b := by
  intro a
  induction a with
  | nil =>
    intro b _ hba
    cases b with
    | nil => rfl
    | cons y ys => simp [charListLe] at hba
  | cons x xs ih =>
    intro b hab hba
    cases b with
    | nil => simp [charListLe] at hab
    | cons y ys =>
      simp only [charListLe] at hab hba
      by_cases hxy : x = y
      · subst hxy
        rw [if_pos rfl] at hab hba
        rw [ih ys hab hba]
      · rw [if_neg hxy] at hab
        rw [if_neg (Ne.symm hxy)] at hba
        exact absurd (lt_asymm (of_decide_eq_true hab)) (fun h => h (of_decide_eq_true hba))

instance : IsTotal String (fun a b => strLe a b = true) :=
  ⟨fun a b => charListLe_total a.data b.data⟩

instance : IsTrans String (fun a b => strLe a b = true) :=
  ⟨fun a b c => charListLe_trans a.data b.data c.data⟩

instance : IsAntisymm String (fun a b => strLe a b = true) :=
  ⟨fun a b hab hba => String.ext (charListLe_antisymm a.data b.data hab hba)⟩

theorem mem_sortStrings {a : String} {l : List String} : a ∈ sortStrings l ↔ a ∈ l :=
  (List.perm_insertionSort _ l).mem_iff

theorem sortStrings_congr {l₁ l₂ : List String} (h : l₁.Perm l₂) :
    sortStrings l₁ = sortStrings l₂ :=
  List.eq_of_perm_of_sorted
    ((List.perm_insertionSort _ l₁).trans (h.trans (List.perm_insertionSort _ l₂).symm))
    (List.sorted_insertionSort _ l₁) (List.sorted_insertionSort _ l₂)

/-- The result of `filterValidTags` does not depend on the order in which
the Go `range` visits the frequency map's keys. -/
theorem filterValidTags_congr_order {order₁ order₂ : List String} (h : order₁.Perm order₂)
    (remaining : List Service) (frequencyThreshold : GoRat) (minServicesPerGroup : Int) :
    filterValidTags remaining frequencyThreshold minServicesPerGroup order₁ =
      filterValidTags remaining frequencyThreshold minServicesPerGroup order₂ := by
  unfold filterValidTags
  exact sortStrings_congr (h.filter _)

/-- The whole grouping run does not depend on the key-visit order: the
enumeration is consumed only by the single `filterValidTags` call. -/
theorem calculateGroupsOrd_congr_order {order₁ order₂ : List String} (h : order₁.Perm order₂)
    (groupingEnabled : Bool) (frequencyThreshold : GoRat) (minServicesPerGroup : Int)
    (targetSize : GoRat) (services : List Service) :
    CalculateGroupsOrd groupingEnabled frequencyThreshold minServicesPerGroup targetSize
        order₁ services =
      CalculateGroupsOrd groupingEnabled frequencyThreshold minServicesPerGroup targetSize
        order₂ services := by
  simp only [CalculateGroupsOrd, filterValidTags_congr_order h]

/-! ## C8 — grouping determinism -/

/-- **C8**: For a fixed input set of services and a fixed grouping
configuration, the grouping run is a pure function of its inputs; the only
internal nondeterminism of the Go code is the order in which `range`
visits the tag-frequency map in `filterValidTags`, and any two visit
orders (any two permutations of the key set) produce identical group
assignments — ties are broken by the `sort.Strings` lexicographic order,
not by map order. -/
theorem calculateGroups_deterministic (groupingEnabled : Bool) (frequencyThreshold : GoRat)
    (minServicesPerGroup : Int) (targetSize : GoRat) (services : List Service)
    (order₁ order₂ : List String) (h : order₁.Perm order₂) :
    CalculateGroupsOrd groupingEnabled frequencyThreshold minServicesPerGroup targetSize
        order₁ services =
      CalculateGroupsOrd groupingEnabled frequencyThreshold minServicesPerGroup targetSize
        order₂ services :=
  calculateGroupsOrd_congr_order h groupingEnabled frequencyThreshold minServicesPerGroup
    targetSize services

/-- Witness for C8 at a concrete input: the scenario services with the two
possible visit orders of the tags `x`, `z`. -/
theorem calculateGroups_deterministic_witness :
    CalculateGroupsOrd true ⟨9, 10⟩ 2 ⟨2, 1⟩ ["x", "y", "z"] [svcA, svcB, svcC, svcD] =
      CalculateGroupsOrd true ⟨9, 10⟩ 2 ⟨2, 1⟩ ["z", "y", "x"] [svcA, svcB, svcC, svcD] :=
  calculateGroups_deterministic true ⟨9, 10⟩ 2 ⟨2, 1⟩ [svcA, svcB, svcC, svcD]
    ["x", "y", "z"] ["z", "y", "x"] (by decide)

/-! ## C4 — the four-service grouping scenario -/

/-- **C4**: On services `A:[x,y]`, `B:[x]`, `C:[y,z]`, `D:[z]` with
`minGroupSize = 2`, `frequencyThreshold = 0.9` and no pre-assigned groups
(target size `√4 = 2`), the engine assigns `A,B` the group `x` and `C,D`
the group `z`, whatever order the tag-frequency map is visited in. -/
theorem calculateGroups_scenario (order : List String)
    (h : order.Perm (tagKeys [svcA, svcB, svcC, svcD])) :
    CalculateGroupsOrd true ⟨9, 10⟩ 2 ⟨2, 1⟩ order [svcA, svcB, svcC, svcD] =
      [{ svcA with group := "x" }, { svcB with group := "x" },
       { svcC with group := "z" }, { svcD with group := "z" }] := by
  rw [calculateGroupsOrd_congr_order h true ⟨9, 10⟩ 2 ⟨2, 1⟩ [svcA, svcB, svcC, svcD]]
  decide

/-- Witness for C4 with the canonical key order. -/
theorem calculateGroups_scenario_witness :
    CalculateGroupsOrd true ⟨9, 10⟩ 2 ⟨2, 1⟩ (tagKeys [svcA, svcB, svcC, svcD])
        [svcA, svcB, svcC, svcD] =
      [{ svcA with group := "x" }, { svcB with group := "x" },
       { svcC with group := "z" }, { svcD with group := "z" }] :=
  calculateGroups_scenario (tagKeys [svcA, svcB, svcC, svcD]) (List.Perm.refl _)

/-! ## C1 — the valid-tag filter -/

/-- The exact admission condition of the Go loop body, for a tag that
occurs among the remaining services. -/
theorem tagValid_eq_true_iff (remaining : List Service) (threshold minSvc : Int)
    (tag : String) :
    tagValid remaining threshold minSvc tag = true ↔
      (minSvc ≤ (countTag remaining tag : Int) ∨
        ((countTag remaining tag : Int) = 1 ∧ 1 < minSvc ∧ 1 ≤ threshold ∧
          ∃ s ∈ remaining, s.tags = [tag])) := by
  simp only [tagValid]
  split_ifs with h1 h2
  · simp only [Bool.false_eq_true, false_iff]
    rintro (h | ⟨hq1, hq2, hq3, -⟩) <;> omega
  · rw [List.any_eq_true]
    simp only [decide_eq_true_eq]
    constructor
    · rintro ⟨s, hs, hts⟩
      exact Or.inr ⟨h2.1, h2.2, by omega, s, hs, hts⟩
    · rintro (h | ⟨-, -, -, s, hs, hts⟩)
      · omega
      · exact ⟨s, hs, hts⟩
  · rw [decide_eq_true_eq]
    constructor
    · intro h; exact Or.inl h
    · rintro (h | ⟨hq1, hq2, -, -⟩)
      · exact h
      · exact absurd ⟨hq1, hq2⟩ h2

/-- A tag is a key of the frequency map iff it occurs among the remaining
services' tags. -/
theorem mem_tagKeys_iff {tag : String} {remaining : List Service} :
    tag ∈ tagKeys remaining ↔ 0 < countTag remaining tag := by
  unfold tagKeys countTag
  rw [List.mem_dedup, ← List.count_pos_iff]

/-- **C1** (amended): a tag occurring among the remaining services is
admitted by the valid-tag filter **iff** its frequency meets
`minServicesPerGroup`, **or** its frequency is exactly 1, `minGroupSize >
1`, `1 ≤ int(frequencyThreshold × totalRemaining)` and some remaining
service's entire tag set is exactly that tag.  In particular — contrary to
the claim as stated — a tag whose frequency is greater than 1 but below
`minGroupSize` is never eligible, however far below the frequency
threshold it lies, and the threshold comparison uses the truncated
`int(frequencyThreshold × totalRemaining)`. -/
theorem filterValidTags_mem_iff (remaining : List Service) (frequencyThreshold : GoRat)
    (minServicesPerGroup : Int) (tag : String) :
    tag ∈ filterValidTags remaining frequencyThreshold minServicesPerGroup
        (tagKeys remaining) ↔
      0 < countTag remaining tag ∧
        (minServicesPerGroup ≤ (countTag remaining tag : Int) ∨
          ((countTag remaining tag : Int) = 1 ∧ 1 < minServicesPerGroup ∧
            1 ≤ (frequencyThreshold.mul (GoRat.ofNat remaining.length)).trunc ∧
            ∃ s ∈ remaining, s.tags = [tag])) := by
  simp only [filterValidTags]
  rw [mem_sortStrings, List.mem_filter, tagValid_eq_true_iff, mem_tagKeys_iff]

/-- **C1** (counterexample to the claim as stated): four remaining
services `[t]`, `[t]`, `[u]`, `[u]` with `frequencyThreshold = 0.9` and
`minGroupSize = 3`.  Tag `t` has frequency `2 < 0.9 × 4 = 3.6`, so clause
(a) of the claim admits it and clause (b) is vacuous — yet the code's
filter rejects every tag here, because a frequency strictly between 1 and
`minGroupSize` falls through all three admission cases. -/
theorem filterValidTags_spec_counterexample :
    specTagValid
        [⟨"A", "", 0, "", ["t"], ""⟩, ⟨"B", "", 0, "", ["t"], ""⟩,
         ⟨"C", "", 0, "", ["u"], ""⟩, ⟨"D", "", 0, "", ["u"], ""⟩] ⟨9, 10⟩ 3 "t" = true ∧
      filterValidTags
        [⟨"A", "", 0, "", ["t"], ""⟩, ⟨"B", "", 0, "", ["t"], ""⟩,
         ⟨"C", "", 0, "", ["u"], ""⟩, ⟨"D", "", 0, "", ["u"], ""⟩] ⟨9, 10⟩ 3
        (tagKeys
          [⟨"A", "", 0, "", ["t"], ""⟩, ⟨"B", "", 0, "", ["t"], ""⟩,
           ⟨"C", "", 0, "", ["u"], ""⟩, ⟨"D", "", 0, "", ["u"], ""⟩]) = [] := by
  decide

/-! ## Soundness of the fuel embedding of the greedy loop -/

/-- `selectBestTag`'s fold returns either its seed tag or a member of the
candidate list. -/
theorem selectBestTagAux_fst (tagCount : String → Nat) (targetSize : GoRat) :
    ∀ (l : List String) (b : String) (s : GoRat),
      (selectBestTagAux tagCount targetSize l (b, s)).1 = b ∨
        (selectBestTagAux tagCount targetSize l (b, s)).1 ∈ l := by
  intro l
  induction l with
  | nil => intro b s; exact Or.inl rfl
  | cons t rest ih =>
    intro b s
    simp only [selectBestTagAux]
    split_ifs
    · rcases ih t _ with h | h
      · exact Or.inr (by rw [h]; exact List.mem_cons_self t rest)
      · exact Or.inr (List.mem_cons_of_mem t h)
    · rcases ih b s with h | h
      · exact Or.inl h
      · exact Or.inr (List.mem_cons_of_mem t h)

/-- A non-empty best tag is always one of the valid tags. -/
theorem selectBestTag_mem {validTags : List String} {tagCount : String → Nat}
    {targetSize : GoRat} (h : selectBestTag validTags tagCount targetSize ≠ "") :
    selectBestTag validTags tagCount targetSize ∈ validTags := by
  rcases selectBestTagAux_fst tagCount targetSize validTags "" ⟨-1000000000, 1⟩ with h' | h'
  · exact absurd h' h
  · exact h'

/-- With no valid tags the loop is the identity on the services, whatever
the fuel. -/
theorem groupLoop_nil (targetSize : GoRat) (fuel : Nat) (services : List Service)
    (remainingIndices : List Nat) :
    groupLoop targetSize fuel services remainingIndices [] = services := by
  cases fuel with
  | zero => rfl
  | succ n => simp [groupLoop]

/-- Any fuel of at least `validTags.length` gives the same result: each
pass of the Go loop that does not exit removes the chosen tag from
`validTags`, so the embedding's fuel never runs out before the loop's own
exit condition holds. -/
theorem groupLoop_fuel_irrelevant (targetSize : GoRat) :
    ∀ (fuel₁ fuel₂ : Nat) (validTags : List String) (services : List Service)
      (remainingIndices : List Nat),
      validTags.length ≤ fuel₁ → validTags.length ≤ fuel₂ →
      groupLoop targetSize fuel₁ services remainingIndices validTags =
        groupLoop targetSize fuel₂ services remainingIndices validTags := by
  intro fuel₁
  induction fuel₁ with
  | zero =>
    intro fuel₂ validTags services remainingIndices h1 _
    have hvt : validTags = [] := List.eq_nil_of_length_eq_zero (Nat.le_zero.mp h1)
    subst hvt
    rw [groupLoop_nil, groupLoop_nil]
  | succ a ih =>
    intro fuel₂ validTags services remainingIndices h1 h2
    cases fuel₂ with
    | zero =>
      have hvt : validTags = [] := List.eq_nil_of_length_eq_zero (Nat.le_zero.mp h2)
      subst hvt
      rw [groupLoop_nil, groupLoop_nil]
    | succ b =>
      simp only [groupLoop]
      by_cases hc : remainingIndices.length = 0 ∨ validTags.length = 0
      · simp only [if_pos hc]
      · simp only [if_neg hc]
        by_cases hb :
            selectBestTag validTags
              (countTag (remainingIndices.map (fun i => services.getD i emptyService)))
              targetSize = ""
        · simp only [if_pos hb]
        · simp only [if_neg hb]
          have hlt :
              (validTags.filter (· ≠ selectBestTag validTags
                (countTag (remainingIndices.map (fun i => services.getD i emptyService)))
                targetSize)).length < validTags.length := by
            apply List.length_filter_lt_length_iff_exists.mpr
            exact ⟨_, selectBestTag_mem hb, by simp⟩
          exact ih b _ _ _ (by omega) (by omega)

/-! ## C3 — protocol determination -/

theorem tlsConfigured_eq_true_iff (o : Option String) :
    tlsConfigured o = true ↔ ∃ t, o = some t ∧ t ≠ "null" ∧ t ≠ "{}" ∧ t ≠ "" := by
  cases o with
  | none => simp [tlsConfigured]
  | some t => simp [tlsConfigured]

/-- `DetermineProtocol` only ever answers `"http"` or `"https"`. -/
theorem determineProtocol_cases (router : TraefikRouter) (entryPoint : TraefikEntryPoint) :
    DetermineProtocol router entryPoint = "http" ∨
      DetermineProtocol router entryPoint = "https" := by
  unfold DetermineProtocol
  split_ifs <;> simp

/-- **C3**: the protocol is `https` exactly when the routing record's own
TLS marker is present and not `"null"`, `"{}"` or empty, or — the
router-level marker taking precedence in the sense that the entry point is
only consulted otherwise — when the resolved entry point's TLS marker
passes the same test; in every other case it is `http`. -/
theorem determineProtocol_spec (router : TraefikRouter) (entryPoint : TraefikEntryPoint) :
    (DetermineProtocol router entryPoint = "https" ↔
      (∃ t, router.tls = some t ∧ t ≠ "null" ∧ t ≠ "{}" ∧ t ≠ "") ∨
        (∃ t, entryPoint.http.tls = some t ∧ t ≠ "null" ∧ t ≠ "{}" ∧ t ≠ "")) ∧
    (DetermineProtocol router entryPoint = "http" ↔
      ¬((∃ t, router.tls = some t ∧ t ≠ "null" ∧ t ≠ "{}" ∧ t ≠ "") ∨
        (∃ t, entryPoint.http.tls = some t ∧ t ≠ "null" ∧ t ≠ "{}" ∧ t ≠ ""))) := by
  rw [← tlsConfigured_eq_true_iff, ← tlsConfigured_eq_true_iff]
  unfold DetermineProtocol
  split_ifs with h1 h2 <;> simp_all

/-! ## C7 — path-prefix normalization -/

/-- After the leading-slash step, a non-empty path starts with `'/'`. -/
theorem cleanPath_pre_head {p : List Char} (hp : p ≠ []) :
    (if p ≠ [] ∧ p.head? ≠ some '/' then '/' :: p else p).head? = some '/' := by
  split_ifs with h
  · rfl
  · rw [not_and] at h
    have := h hp
    rw [not_not] at this
    exact this

/-- The leading-slash step neither creates nor destroys a `"//"` suffix. -/
theorem cleanPath_pre_suffix {p : List Char} :
    (['/', '/'] <:+ (if p ≠ [] ∧ p.head? ≠ some '/' then '/' :: p else p)) ↔
      ['/', '/'] <:+ p := by
  split_ifs with h
  · constructor
    · rintro ⟨t, ht⟩
      cases t with
      | nil =>
        exfalso
        apply h.2
        have hp : p = ['/'] := by
          have := List.cons.injEq '/' ['/'] '/' p |>.mp (by simpa using ht)
          exact this.2.symm
        rw [hp]
        rfl
      | cons c t' =>
        rw [List.cons_append, List.cons.injEq] at ht
        exact ⟨t', ht.2⟩
    · rintro ⟨t, ht⟩
      exact ⟨'/' :: t, by rw [List.cons_append, ht]⟩
  · exact Iff.rfl

/-- **C7** (amended): for a non-empty captured path value `p`, the
normalized path is empty exactly when `p` is the single character `"/"`;
when non-empty it starts with `'/'`; and since `strings.TrimSuffix`
removes at most **one** trailing slash, it still ends with `'/'` exactly
when `p` ends with two or more slashes (`"//"` as a suffix) — the claim's
"never ends with `/`" only holds for captures with at most one trailing
slash. -/
theorem cleanPath_amended (p : List Char) (hp : p ≠ []) :
    (cleanPath p = [] ↔ p = ['/']) ∧
    (cleanPath p ≠ [] → (cleanPath p).head? = some '/') ∧
    ((cleanPath p).getLast? = some '/' ↔ ['/', '/'] <:+ p) := by
  simp only [cleanPath]
  rw [← cleanPath_pre_suffix (p := p)]
  set p₂ := if p ≠ [] ∧ p.head? ≠ some '/' then '/' :: p else p with hp₂
  have hp₂head : p₂.head? = some '/' := cleanPath_pre_head hp
  have hp₂ne : p₂ ≠ [] := by
    intro h
    rw [h] at hp₂head
    exact Option.noConfusion hp₂head
  have hp₂p : p₂ = ['/'] ↔ p = ['/'] := by
    rw [hp₂]
    split_ifs with h
    · constructor
      · intro heq
        exact absurd (List.cons_eq_cons.mp heq).2 h.1
      · intro heq
        exact absurd (by rw [heq]; rfl) h.2
    · exact Iff.rfl
  split_ifs with hlast
  · obtain ⟨q, hq⟩ := List.getLast?_eq_some_iff.mp hlast
    rw [hq, List.dropLast_concat]
    refine ⟨?_, ?_, ?_⟩
    · constructor
      · intro hqnil
        rw [hqnil] at hq
        rw [← hp₂p, hq]
        rfl
      · intro hps
        rcases List.eq_nil_or_concat q with hqnil | ⟨r, c, hrc⟩
        · exact hqnil
        · exfalso
          rw [← hp₂p] at hps
          rw [hps] at hq
          rw [hrc] at hq
          cases r <;> simp at hq
    · intro hqne
      have : q.head? = (q ++ ['/']).head? := (List.head?_append_of_ne_nil q hqne).symm
      rw [this, ← hq]
      exact hp₂head
    · constructor
      · intro hq'
        obtain ⟨r, hr⟩ := List.getLast?_eq_some_iff.mp hq'
        exact ⟨r, by rw [hr, List.append_assoc]; rfl⟩
      · rintro ⟨t, ht⟩
        have hqt : t ++ ['/'] = q := by
          have hassoc : (t ++ ['/']) ++ ['/'] = q ++ ['/'] := by
            rw [List.append_assoc]
            exact ht
          exact List.append_cancel_right hassoc
        rw [← hqt]
        exact List.getLast?_eq_some_iff.mpr ⟨t, rfl⟩
  · refine ⟨?_, ?_, ?_⟩
    · simp only [hp₂ne, false_iff]
      intro hps
      apply hlast
      rw [← hp₂p] at hps
      rw [hps]
      rfl
    · intro _
      exact hp₂head
    · simp only [hlast, false_iff]
      rintro ⟨t, ht⟩
      apply hlast
      rw [← ht]
      exact List.getLast?_eq_some_iff.mpr ⟨t ++ ['/'], by rw [List.append_assoc]; rfl⟩

/-- Witness for C7 at the capture `"a"`: cleaned to `"/a"`, which is
non-empty, starts with `'/'` and does not end with `'/'`. -/
theorem cleanPath_amended_witness :
    (cleanPath "a".data = [] ↔ "a".data = ['/']) ∧
    (cleanPath "a".data ≠ [] → (cleanPath "a".data).head? = some '/') ∧
    ((cleanPath "a".data).getLast? = some '/' ↔ ['/', '/'] <:+ "a".data) :=
  cleanPath_amended "a".data (by decide)

/-- **C7** (counterexample to the claim as stated): the rule
``Host(`h`) && PathPrefix(`a//`)`` captures the path value `a//`; the
normalization produces `/a/` — which ends with `'/'` — and the
reconstructed URL is `http://h/a/`. -/
theorem cleanPath_counterexample :
    cleanPath "a//".data = "/a/".data ∧
      (cleanPath "a//".data).getLast? = some '/' ∧
      ReconstructURL ⟨"r", "Host(`h`) && PathPrefix(`a//`)", 0, ["web"], none⟩
        (fun n => if n = "web" then some ⟨":80", ⟨none⟩⟩ else none) = "http://h/a/" := by
  decide

/-! ## C2 — absent URLs and the aggregator's drop -/

/-- A string beginning with a non-empty string is non-empty. -/
theorem str_append_ne_empty (a b : String) (ha : a ≠ "") : a ++ b ≠ "" := by
  intro h
  apply ha
  have hdata := congrArg String.data h
  rw [String.data_append] at hdata
  exact String.ext (List.append_eq_nil.mp hdata).1

/-- In the success case (host capture, listed entrypoint, resolved
entrypoint) the reconstructed URL is non-empty. -/
theorem reconstructURL_success_ne_empty {router : TraefikRouter}
    {entryPoints : String → Option TraefikEntryPoint} {hostname : String}
    {entryPointName : String} {rest : List String} {entryPoint : TraefikEntryPoint}
    (hh : findCapture hostLit router.rule.data = some hostname)
    (he : router.entryPoints = entryPointName :: rest)
    (hl : entryPoints entryPointName = some entryPoint) :
    ReconstructURL router entryPoints ≠ "" := by
  unfold ReconstructURL
  rw [hh]
  dsimp only
  rw [he]
  dsimp only
  rw [hl]
  dsimp only
  have hproto : DetermineProtocol router entryPoint ≠ "" := by
    rcases determineProtocol_cases router entryPoint with h | h <;> rw [h] <;> decide
  split_ifs
  · apply str_append_ne_empty
    apply str_append_ne_empty
    apply str_append_ne_empty
    exact hproto
  · apply str_append_ne_empty
    apply str_append_ne_empty
    apply str_append_ne_empty
    apply str_append_ne_empty
    apply str_append_ne_empty
    exact hproto

/-- **C2**: the reconstructed URL is absent (empty) exactly when the rule
has no ``Host(`…`)`` capture, the record lists no entry points, or the
first listed entry-point name does not resolve in the supplied mapping;
and whenever `ProcessRouter` includes a record in the output, the emitted
service's URL is non-empty (records without a URL are dropped). -/
theorem reconstructURL_empty_iff (env : ProcEnv) (router : TraefikRouter)
    (entryPoints : String → Option TraefikEntryPoint) :
    (ReconstructURL router entryPoints = "" ↔
      findCapture hostLit router.rule.data = none ∨ router.entryPoints = [] ∨
        ∃ entryPointName rest, router.entryPoints = entryPointName :: rest ∧
          entryPoints entryPointName = none) ∧
    ((ProcessRouter env router entryPoints).2 = true →
      (ProcessRouter env router entryPoints).1.url ≠ "") := by
  constructor
  · cases hh : findCapture hostLit router.rule.data with
    | none =>
      constructor
      · intro _; exact Or.inl rfl
      · intro _
        unfold ReconstructURL
        rw [hh]
    | some hostname =>
      cases he : router.entryPoints with
      | nil =>
        constructor
        · intro _; exact Or.inr (Or.inl rfl)
        · intro _
          unfold ReconstructURL
          rw [hh]
          dsimp only
          rw [he]
      | cons entryPointName rest =>
        cases hl : entryPoints entryPointName with
        | none =>
          constructor
          · intro _; exact Or.inr (Or.inr ⟨entryPointName, rest, rfl, hl⟩)
          · intro _
            unfold ReconstructURL
            rw [hh]
            dsimp only
            rw [he]
            dsimp only
            rw [hl]
        | some entryPoint =>
          constructor
          · intro hempty
            exact absurd hempty (reconstructURL_success_ne_empty hh he hl)
          · rintro (h | h | ⟨n, r, hnr, hn⟩)
            · exact Option.noConfusion h
            · exact List.noConfusion h
            · rw [List.cons_eq_cons] at hnr
              rw [hnr.1] at hl
              exact Option.noConfusion (hn.symm.trans hl)
  · simp only [ProcessRouter]
    split_ifs with h1 h2 h3 h4 h5
    · intro h; simp at h
    · intro h; simp at h
    · intro h; simp at h
    · intro h; simp at h
    · intro _; exact h1
    · intro _; exact h1

/-! ## C9 — the port suffix is appended after the path prefix -/

/-- **C9**: whenever the rule yields a Host capture and a PathPrefix
capture, the first listed entry point resolves, and the entry point's port
is not the canonical default for the determined protocol, the
reconstructed URL is literally
`protocol ++ "://" ++ hostname ++ path ++ ":" ++ port` — the port comes
after the path prefix, not directly after the hostname. -/
theorem reconstructURL_port_after_path (router : TraefikRouter)
    (entryPoints : String → Option TraefikEntryPoint) (hostname p : String)
    (entryPointName : String) (rest : List String) (entryPoint : TraefikEntryPoint)
    (hh : findCapture hostLit router.rule.data = some hostname)
    (hp : findCapture pathLit router.rule.data = some p)
    (he : router.entryPoints = entryPointName :: rest)
    (hl : entryPoints entryPointName = some entryPoint)
    (hport : ¬((DetermineProtocol router entryPoint = "http" ∧
        goTrimPrefix entryPoint.address ":" = "80") ∨
      (DetermineProtocol router entryPoint = "https" ∧
        goTrimPrefix entryPoint.address ":" = "443"))) :
    ReconstructURL router entryPoints =
      DetermineProtocol router entryPoint ++ "://" ++ hostname ++
        (⟨cleanPath p.data⟩ : String) ++ ":" ++ goTrimPrefix entryPoint.address ":" := by
  unfold ReconstructURL
  rw [hh]
  dsimp only
  rw [hp]
  dsimp only
  rw [he]
  dsimp only
  rw [hl]
  dsimp only
  rw [if_neg hport]

/-- Witness for C9: `Host(`example.com`) && PathPrefix(`/app`)` on an
entry point bound to `:8443` whose TLS marker is set. -/
theorem reconstructURL_port_after_path_witness :
    ReconstructURL ⟨"r", "Host(`example.com`) && PathPrefix(`/app`)", 0, ["websecure"], none⟩
        (fun n => if n = "websecure" then some ⟨":8443", ⟨some "cfg"⟩⟩ else none) =
      DetermineProtocol
          ⟨"r", "Host(`example.com`) && PathPrefix(`/app`)", 0, ["websecure"], none⟩
          ⟨":8443", ⟨some "cfg"⟩⟩ ++ "://" ++ "example.com" ++
        (⟨cleanPath "/app".data⟩ : String) ++ ":" ++ goTrimPrefix ":8443" ":" :=
  reconstructURL_port_after_path
    ⟨"r", "Host(`example.com`) && PathPrefix(`/app`)", 0, ["websecure"], none⟩
    (fun n => if n = "websecure" then some ⟨":8443", ⟨some "cfg"⟩⟩ else none)
    "example.com" "/app" "websecure" [] ⟨":8443", ⟨some "cfg"⟩⟩
    (by decide) (by decide) (by decide) (by decide) (by decide)

/-! ## C6 — override short-circuit in the icon cascade -/

/-- Appending a string leaves it as a suffix. -/
theorem strEndsWith_append (a b : String) : strEndsWith (a ++ b) b = true := by
  unfold strEndsWith
  rw [String.data_append]
  exact List.isSuffixOf_iff_suffix.mpr ⟨a.data, rfl⟩

/-- **C6**: with a configured icon override of `foo.svg` for a router,
`FindIcon` answers a catalog URL ending in `svg/foo.svg` — whatever the
catalog holds — and performs no network probe (no favicon check, HTML
fetch or image HEAD request) for that router. -/
theorem findIcon_override_short_circuit (env : IconEnv)
    (routerName serviceURL displayNameReplaced reference : String)
    (hov : env.iconOverride routerName = "foo.svg") :
    strEndsWith (FindIcon env routerName serviceURL displayNameReplaced reference).1
        "svg/foo.svg" = true ∧
      (FindIcon env routerName serviceURL displayNameReplaced reference).2 = [] := by
  unfold FindIcon
  rw [hov]
  rw [if_pos (by decide : ("foo.svg" : String) ≠ "")]
  rw [if_neg (by decide :
    ¬(goHasPrefix "foo.svg" "http://" = true ∨ goHasPrefix "foo.svg" "https://" = true))]
  rw [if_pos (by decide :
    filepathExt "foo.svg" = ".png" ∨ filepathExt "foo.svg" = ".svg" ∨
      filepathExt "foo.svg" = ".webp")]
  rw [(by decide : goTrimPrefix (filepathExt "foo.svg") "." = "svg"),
    (by decide : strToLower "foo.svg" = "foo.svg")]
  refine ⟨?_, rfl⟩
  unfold strEndsWith
  rw [String.data_append, String.data_append, String.data_append]
  refine List.isSuffixOf_iff_suffix.mpr ⟨env.selfhstIconURL.data, ?_⟩
  rw [List.append_assoc, List.append_assoc]
  rfl

/-- Witness for C6 at a concrete environment whose override table maps
every router to `foo.svg`. -/
theorem findIcon_override_short_circuit_witness :
    strEndsWith
        (FindIcon
          ⟨fun _ => "foo.svg", "https://cdn.example/", fun _ => "", .ok [], .ok [],
            fun _ => "", fun _ => ""⟩ "router" "http://svc" "router" "ref").1
        "svg/foo.svg" = true ∧
      (FindIcon
        ⟨fun _ => "foo.svg", "https://cdn.example/", fun _ => "", .ok [], .ok [],
          fun _ => "", fun _ => ""⟩ "router" "http://svc" "router" "ref").2 = [] :=
  findIcon_override_short_circuit
    ⟨fun _ => "foo.svg", "https://cdn.example/", fun _ => "", .ok [], .ok [],
      fun _ => "", fun _ => ""⟩ "router" "http://svc" "router" "ref" rfl

/-! ## C5 — stale cache and refresh failure -/

/-- **C5** (amended): when the cached catalog is not servable (stale or
empty) and the refresh fetch fails, both cache getters return the fetch
**error** to the caller and leave the cached contents untouched — the
stale data is *not* served; it is the callers
(`ResolveSelfHstReference`, `GetSelfHstIconURL`, `GetServiceTags`) that
degrade the error into a no-match. -/
theorem cacheRefreshFailure_returns_error (nowIcons : Int) (stIcons : SelfHstIconCache)
    (nowApps : Int) (stApps : SelfHstAppsCache)
    (hIcons : ¬(nowIcons - stIcons.cacheTime < selfhstCacheTTL ∧ 0 < stIcons.icons.length))
    (hApps : ¬(nowApps - stApps.cacheTime < selfhstAppsCacheTTL ∧ 0 < stApps.apps.length)) :
    GetSelfHstIconNames nowIcons stIcons (.error ()) = (.error (), stIcons) ∧
      GetSelfHstAppTags nowApps stApps (.error ()) = (.error (), stApps) := by
  unfold GetSelfHstIconNames GetSelfHstAppTags
  rw [if_neg hIcons, if_neg hApps]
  exact ⟨rfl, rfl⟩

/-- Witness for the amended C5: a one-entry cache exactly one TTL old. -/
theorem cacheRefreshFailure_returns_error_witness :
    GetSelfHstIconNames selfhstCacheTTL
        ⟨[⟨"n", "r", "Yes", "Yes", "No", "", "", "", "", ""⟩], 0⟩ (.error ()) =
      (.error (), ⟨[⟨"n", "r", "Yes", "Yes", "No", "", "", "", "", ""⟩], 0⟩) ∧
    GetSelfHstAppTags selfhstAppsCacheTTL ⟨[⟨"r", "n", ["tag"]⟩], 0⟩ (.error ()) =
      (.error (), ⟨[⟨"r", "n", ["tag"]⟩], 0⟩) :=
  cacheRefreshFailure_returns_error selfhstCacheTTL
    ⟨[⟨"n", "r", "Yes", "Yes", "No", "", "", "", "", ""⟩], 0⟩ selfhstAppsCacheTTL
    ⟨[⟨"r", "n", ["tag"]⟩], 0⟩ (by decide) (by decide)

/-- **C5** (counterexample to the claim as stated): a non-empty icon cache
exactly one TTL old (hence stale) with a failing refresh — the getter
answers the error, not the stale one-entry list the claim promises. -/
theorem staleCacheServe_counterexample :
    ¬(selfhstCacheTTL - (0 : Int) < selfhstCacheTTL) ∧
      0 < [(⟨"n", "r", "Yes", "Yes", "No", "", "", "", "", ""⟩ : SelfHstIcon)].length ∧
      (GetSelfHstIconNames selfhstCacheTTL
          ⟨[⟨"n", "r", "Yes", "Yes", "No", "", "", "", "", ""⟩], 0⟩ (.error ())).1 =
        .error () ∧
      (GetSelfHstIconNames selfhstCacheTTL
          ⟨[⟨"n", "r", "Yes", "Yes", "No", "", "", "", "", ""⟩], 0⟩ (.error ())).1 ≠
        .ok [⟨"n", "r", "Yes", "Yes", "No", "", "", "", "", ""⟩] := by
  refine ⟨by decide, by decide, rfl, ?_⟩
  intro h
  exact Except.noConfusion h

/-! ## C10 — default priority of manual services -/

/-- **C10**: a manually declared service with a valid URL whose configured
priority is 0 (the zero value of an omitted field) is emitted with
priority 50, and consequently no service in `GetManualServices`' output
carries priority 0. -/
theorem manualService_priority_default (env : ManualEnv)
    (manualServices : List ManualService) (manualService : ManualService)
    (hvalid : env.isValidUrl manualService.url = true)
    (hzero : manualService.priority = 0) :
    (∃ s, processManualService env manualService = some s ∧ s.priority = 50) ∧
      ∀ s ∈ GetManualServices env manualServices, s.priority ≠ 0 := by
  constructor
  · unfold processManualService
    rw [if_neg (by simp [hvalid])]
    refine ⟨_, rfl, ?_⟩
    simp [hzero]
  · intro s hs
    unfold GetManualServices at hs
    rw [List.mem_filterMap] at hs
    obtain ⟨m, _, hpm⟩ := hs
    unfold processManualService at hpm
    by_cases hvm : env.isValidUrl m.url = true
    · rw [if_neg (not_not_intro hvm)] at hpm
      dsimp only at hpm
      injection hpm with hrec
      rw [← hrec]
      dsimp only
      split_ifs with hz
      · decide
      · exact hz
    · rw [if_pos hvm] at hpm
      exact Option.noConfusion hpm

/-- Witness for C10: one declared service with priority 0 and an
always-true validator. -/
theorem manualService_priority_default_witness :
    (∃ s,
        processManualService
            ⟨fun _ => true, fun _ => "",
              ⟨fun _ => "", "u/", fun _ => "", .ok [], .ok [], fun _ => "", fun _ => ""⟩⟩
            ⟨"m", "http://m", "", 0, ""⟩ =
          some s ∧ s.priority = 50) ∧
      ∀ s ∈ GetManualServices
          ⟨fun _ => true, fun _ => "",
            ⟨fun _ => "", "u/", fun _ => "", .ok [], .ok [], fun _ => "", fun _ => ""⟩⟩
          [⟨"m", "http://m", "", 0, ""⟩], s.priority ≠ 0 :=
  manualService_priority_default
    ⟨fun _ => true, fun _ => "",
      ⟨fun _ => "", "u/", fun _ => "", .ok [], .ok [], fun _ => "", fun _ => ""⟩⟩
    [⟨"m", "http://m", "", 0, ""⟩] ⟨"m", "http://m", "", 0, ""⟩ rfl rfl
